import Mathlib

/-!
Shallow embedding of `full_history_avd/src/history_tree/mod.rs`:
the `SingleStepAVDWithHistory` composition layer of a full-history
authenticated verifiable dictionary.  Bytes are modelled as `Nat`,
abstract digests, proofs and Merkle paths as `Nat`, machine counters
(`u64` epochs) as `Nat` (capacity bounds make overflow unreachable),
and fallible Rust `Result` values as `Except RunError`.  The external
collaborators of the crate (the sparse Merkle tree, the fixed-length
CRH and the inner single-step AVD live in sibling crates of the same
repository, not in the analyzed source) are modelled from the spec as
records of functions.
-/

set_option maxRecDepth 4000

/-- Error kinds surfaced by the operations, following the spec's error
taxonomy (§7).  `panicOOB` marks the out-of-bounds slice panic in
`hash_to_final_digest`, which in Rust is a panic rather than an `Err`. -/
inductive RunError where
  | capacityExhausted
  | encodingOverflow
  | indexOutOfRange
  | innerErr
  | panicOOB
deriving DecidableEq

/-- Decidable equality for `Except` results, used to evaluate the model on
concrete inputs. -/
instance {ε α : Type} [DecidableEq ε] [DecidableEq α] : DecidableEq (Except ε α) := fun a b =>
  match a, b with
  | .ok x, .ok y =>
    if h : x = y then isTrue (by rw [h]) else isFalse (fun c => h (Except.ok.inj c))
  | .ok _, .error _ => isFalse (fun c => Except.noConfusion c)
  | .error _, .ok _ => isFalse (fun c => Except.noConfusion c)
  | .error e, .error f =>
    if h : e = f then isTrue (by rw [h]) else isFalse (fun c => h (Except.error.inj c))

/-- Modelled from the spec: the external fixed-length collision-resistant
hash primitive (`FixedLengthCRH`, §6).  `INPUT_SIZE_BITS` is the fixed input
size in bits, `eval` the (total, deterministic per §4.2) evaluation on a
byte string, and `outBytes` the canonical byte serialization of an output
value (`ToBytes`). -/
structure CRH where
  INPUT_SIZE_BITS : Nat
  eval : List Nat → Nat
  outBytes : Nat → List Nat

/-- Modelled from the spec: the external fixed-depth sparse Merkle
accumulator (§4.1, §6).  The tree state is summarized by its authoritative
root; `updRoot` recomputes the root after writing a leaf, `pathOf` produces
the current inclusion path for an in-range index, and `verifyPath` is the
path verifier `MerklePath.verify(root, leafBytes, index, hashParameters)`. -/
structure TreeOps where
  depth : Nat
  newRoot : Nat
  updRoot : Nat → Nat → List Nat → Nat
  pathOf : Nat → Nat → Nat
  verifyPath : Nat → Nat → List Nat → Nat → Except RunError Bool

/-- Modelled from the spec: `tree.update(index, leafBytes)` of the external
Merkle accumulator; per §4.1 the write into a leaf slot fails exactly when
the index has reached the fixed capacity `2^DEPTH`
(surfaced as `CapacityExhausted`). -/
def treeUpdate (T : TreeOps) (root : Nat) (index : Nat) (leaf : List Nat) :
    Except RunError Nat :=
  if index < 2 ^ T.depth then .ok (T.updRoot root index leaf) else .error .capacityExhausted

/-- Modelled from the spec: `tree.lookup(index)` of the external Merkle
accumulator; per §4.1 it fails with `IndexOutOfRange` if the index is at or
beyond capacity, and otherwise returns the current inclusion path. -/
def treeLookup (T : TreeOps) (root : Nat) (index : Nat) : Except RunError Nat :=
  if index < 2 ^ T.depth then .ok (T.pathOf root index) else .error .indexOutOfRange

/-- Modelled from the spec: the external inner single-step AVD (§6).  Inner
states, digests, keys, values and proofs are abstract (`Nat`).  `updateFn`
and `batchUpdateFn` mirror `&mut self` methods: they return the post-call
inner state alongside the fallible result, so a failing call may still have
mutated the inner dictionary.  `digestBytes` is the `ToBytes` serialization
of an inner digest. -/
structure SSAVDOps where
  digestOf : Nat → Except RunError Nat
  digestBytes : Nat → List Nat
  updateFn : Nat → Nat → Nat → (Except RunError (Nat × Nat)) × Nat
  batchUpdateFn : Nat → List (Nat × Nat) → (Except RunError (Nat × Nat)) × Nat
  lookupFn : Nat → Nat → Except RunError (Option (Nat × Nat) × Nat × Nat)
  verifyLookupFn : Nat → Option (Nat × Nat) → Nat → Nat → Except RunError Bool

/-- Zero-pad a byte string on the right to the 128-byte buffer size used by
`hash_to_final_digest` and `digest_to_bytes`. -/
def pad128 (l : List Nat) : List Nat := l ++ List.replicate (128 - l.length) 0

/-- The 8 little-endian bytes of a `u64` epoch (`epoch.to_le_bytes()`). -/
def natToLE8 (e : Nat) : List Nat :=
  [e % 256, e / 256 % 256, e / 256 ^ 2 % 256, e / 256 ^ 3 % 256,
   e / 256 ^ 4 % 256, e / 256 ^ 5 % 256, e / 256 ^ 6 % 256, e / 256 ^ 7 % 256]

/-- Source `hash_to_final_digest`: writes the inner digest's bytes then the history
root's bytes into a zeroed 128-byte buffer (each write fails with an
encoding overflow if it does not fit, mirroring `write_all` on a full
cursor), slices the buffer to `INPUT_SIZE_BITS / 8` bytes (a Rust panic,
`panicOOB`, if the slice bound exceeds 128), hashes it, then does the same
with the epoch's 8 little-endian bytes followed by the intermediate hash's
bytes, and hashes again. -/
def hash_to_final_digest (H : CRH) (ssavdDigestBytes : List Nat)
    (historyTreeDigest : Nat) (epoch : Nat) : Except RunError Nat :=
  let rootBytes := H.outBytes historyTreeDigest
  if ssavdDigestBytes.length + rootBytes.length ≤ 128 then
    let buffer1 := pad128 (ssavdDigestBytes ++ rootBytes)
    if H.INPUT_SIZE_BITS / 8 ≤ 128 then
      let digests_hash := H.eval (buffer1.take (H.INPUT_SIZE_BITS / 8))
      let hashBytes := H.outBytes digests_hash
      if 8 + hashBytes.length ≤ 128 then
        let buffer2 := pad128 (natToLE8 epoch ++ hashBytes)
        .ok (H.eval (buffer2.take (H.INPUT_SIZE_BITS / 8)))
      else .error .encodingOverflow
    else .error .panicOOB
  else .error .encodingOverflow

/-- Source `digest_to_bytes`: serializes a digest (given here by its byte string)
into a zeroed 128-byte buffer, failing with an encoding overflow when the
serialization exceeds the buffer. -/
def digest_to_bytes (digestBytes : List Nat) : Except RunError (List Nat) :=
  if digestBytes.length ≤ 128 then .ok (pad128 digestBytes) else .error .encodingOverflow

/-- The `HistoryTree` state: the Merkle accumulator (summarized by its
root), the reverse index `digest_d` from digest value to epoch (an
association list whose head entry wins, mirroring `HashMap::insert`
overwrite semantics), and the epoch counter. -/
structure HistoryTree where
  root : Nat
  digest_d : List (Nat × Nat)
  epoch : Nat
deriving DecidableEq, Inhabited

/-- Source `HistoryTree::new`: empty accumulator, empty reverse index, epoch 0. -/
def HistoryTree.new (T : TreeOps) : HistoryTree :=
  { root := T.newRoot, digest_d := [], epoch := 0 }

/-- Source `HistoryTree::append_digest`: encode the digest, write it into the leaf
slot at the current epoch, record the reverse-index entry, increment the
epoch. -/
def HistoryTree.append_digest (T : TreeOps) (H : CRH) (ht : HistoryTree)
    (digest : Nat) : Except RunError HistoryTree :=
  match digest_to_bytes (H.outBytes digest) with
  | .error e => .error e
  | .ok leafBytes =>
    match treeUpdate T ht.root ht.epoch leafBytes with
    | .error e => .error e
    | .ok root1 =>
      .ok { root := root1, digest_d := (digest, ht.epoch) :: ht.digest_d,
            epoch := ht.epoch + 1 }

/-- Source `HistoryTree::lookup_path`: the current inclusion path for an epoch. -/
def HistoryTree.lookup_path (T : TreeOps) (ht : HistoryTree) (epoch : Nat) :
    Except RunError Nat :=
  treeLookup T ht.root epoch

/-- Source `HistoryTree::lookup_digest`: reverse-index lookup of a digest value. -/
def HistoryTree.lookup_digest (ht : HistoryTree) (digest : Nat) : Option Nat :=
  (ht.digest_d.find? (fun p => p.1 == digest)).map (fun p => p.2)

/-- Source `SingleStepUpdateProof`: the proof bundle returned by `update` and
`batch_update`. -/
structure SingleStepUpdateProof where
  ssavd_proof : Nat
  history_tree_proof : Nat
  prev_ssavd_digest : Nat
  new_ssavd_digest : Nat
  prev_digest : Nat
  new_digest : Nat
  prev_epoch : Nat
deriving DecidableEq, Inhabited

/-- The state of a `SingleStepAVDWithHistory`: inner AVD state, history
tree, and the stored final digest. -/
structure SingleStepAVDWithHistory where
  ssavd : Nat
  history_tree : HistoryTree
  digest : Nat
deriving DecidableEq, Inhabited

/-- The public `Digest` struct: epoch plus final digest value. -/
structure Digest where
  epoch : Nat
  digest : Nat
deriving DecidableEq, Inhabited

/-- Source `LookupProof`: inner proof, inner digest, history-tree root. -/
structure LookupProof where
  ssavd_proof : Nat
  ssavd_digest : Nat
  history_tree_digest : Nat
deriving DecidableEq, Inhabited

/-- Source `HistoryProof`: inclusion path, current inner digest, current root. -/
structure HistoryProof where
  history_tree_proof : Nat
  ssavd_digest : Nat
  history_tree_digest : Nat
deriving DecidableEq, Inhabited

/-- Source `SingleStepAVDWithHistory::new`: fresh inner AVD (its initial state is
the `init` parameter, standing for `SSAVD::new(rng, pp)`), fresh history
tree, and the final digest computed over the initial inner digest, the
empty tree's root and epoch 0. -/
def SingleStepAVDWithHistory.new (O : SSAVDOps) (T : TreeOps) (H : CRH)
    (init : Nat) : Except RunError SingleStepAVDWithHistory :=
  match O.digestOf init with
  | .error e => .error e
  | .ok d =>
    let history_tree := HistoryTree.new T
    match hash_to_final_digest H (O.digestBytes d) history_tree.root history_tree.epoch with
    | .error e => .error e
    | .ok digest => .ok { ssavd := init, history_tree := history_tree, digest := digest }

/-- Source `SingleStepAVDWithHistory::digest`: the published `(epoch, value)`
pair, copied out of the current state. -/
def SingleStepAVDWithHistory.digest_view (s : SingleStepAVDWithHistory) : Digest :=
  { epoch := s.history_tree.epoch, digest := s.digest }

/-- Source `SingleStepAVDWithHistory::update`.  Mirrors the Rust `&mut self`
method: the second component of the result is the post-call state, which on
an error carries exactly the partial mutations the Rust code leaves behind
(the inner dictionary write is not rolled back when the subsequent history
append fails). -/
def SingleStepAVDWithHistory.update (O : SSAVDOps) (T : TreeOps) (H : CRH)
    (s : SingleStepAVDWithHistory) (key value : Nat) :
    (Except RunError SingleStepUpdateProof) × SingleStepAVDWithHistory :=
  match O.digestOf s.ssavd with
  | .error e => (.error e, s)
  | .ok prev_ssavd_digest =>
    match O.updateFn s.ssavd key value with
    | (.error e, s1) => (.error e, { s with ssavd := s1 })
    | (.ok (new_ssavd_digest, ssavd_proof), s1) =>
      let prev_epoch := s.history_tree.epoch
      let prev_digest := s.digest
      match HistoryTree.append_digest T H s.history_tree prev_digest with
      | .error e => (.error e, { s with ssavd := s1 })
      | .ok ht1 =>
        match HistoryTree.lookup_path T ht1 prev_epoch with
        | .error e => (.error e, { s with ssavd := s1, history_tree := ht1 })
        | .ok history_tree_proof =>
          match hash_to_final_digest H (O.digestBytes new_ssavd_digest) ht1.root ht1.epoch with
          | .error e => (.error e, { s with ssavd := s1, history_tree := ht1 })
          | .ok new_digest =>
            (.ok { ssavd_proof := ssavd_proof,
                   history_tree_proof := history_tree_proof,
                   prev_ssavd_digest := prev_ssavd_digest,
                   new_ssavd_digest := new_ssavd_digest,
                   prev_digest := prev_digest,
                   new_digest := new_digest,
                   prev_epoch := prev_epoch },
             { ssavd := s1, history_tree := ht1, digest := new_digest })

/-- Source `SingleStepAVDWithHistory::batch_update`: identical shape to `update`,
with a single batched inner write and a single history append. -/
def SingleStepAVDWithHistory.batch_update (O : SSAVDOps) (T : TreeOps) (H : CRH)
    (s : SingleStepAVDWithHistory) (kvs : List (Nat × Nat)) :
    (Except RunError SingleStepUpdateProof) × SingleStepAVDWithHistory :=
  match O.digestOf s.ssavd with
  | .error e => (.error e, s)
  | .ok prev_ssavd_digest =>
    match O.batchUpdateFn s.ssavd kvs with
    | (.error e, s1) => (.error e, { s with ssavd := s1 })
    | (.ok (new_ssavd_digest, ssavd_proof), s1) =>
      let prev_epoch := s.history_tree.epoch
      let prev_digest := s.digest
      match HistoryTree.append_digest T H s.history_tree prev_digest with
      | .error e => (.error e, { s with ssavd := s1 })
      | .ok ht1 =>
        match HistoryTree.lookup_path T ht1 prev_epoch with
        | .error e => (.error e, { s with ssavd := s1, history_tree := ht1 })
        | .ok history_tree_proof =>
          match hash_to_final_digest H (O.digestBytes new_ssavd_digest) ht1.root ht1.epoch with
          | .error e => (.error e, { s with ssavd := s1, history_tree := ht1 })
          | .ok new_digest =>
            (.ok { ssavd_proof := ssavd_proof,
                   history_tree_proof := history_tree_proof,
                   prev_ssavd_digest := prev_ssavd_digest,
                   new_ssavd_digest := new_ssavd_digest,
                   prev_digest := prev_digest,
                   new_digest := new_digest,
                   prev_epoch := prev_epoch },
             { ssavd := s1, history_tree := ht1, digest := new_digest })

/-- Source `SingleStepAVDWithHistory::lookup`: delegate to the inner dictionary
and package the inner digest and history root with the inner proof. -/
def SingleStepAVDWithHistory.lookup (O : SSAVDOps) (s : SingleStepAVDWithHistory)
    (key : Nat) : Except RunError (Option (Nat × Nat) × LookupProof) :=
  match O.lookupFn s.ssavd key with
  | .error e => .error e
  | .ok (result, ssavd_digest, ssavd_proof) =>
    .ok (result, { ssavd_proof := ssavd_proof, ssavd_digest := ssavd_digest,
                   history_tree_digest := s.history_tree.root })

/-- Source `SingleStepAVDWithHistory::verify_lookup`: the inner verifier, then
(on its success, mirroring the `&&` short-circuit) the digest-chain check
against the claimed digest's epoch. -/
def SingleStepAVDWithHistory.verify_lookup (O : SSAVDOps) (H : CRH) (key : Nat)
    (value : Option (Nat × Nat)) (digest : Digest) (proof : LookupProof) :
    Except RunError Bool :=
  match O.verifyLookupFn key value proof.ssavd_digest proof.ssavd_proof with
  | .error e => .error e
  | .ok false => .ok false
  | .ok true =>
    match hash_to_final_digest H (O.digestBytes proof.ssavd_digest)
        proof.history_tree_digest digest.epoch with
    | .error e => .error e
    | .ok v => .ok (digest.digest == v)

/-- Source `SingleStepAVDWithHistory::lookup_history`: the reverse-index lookup
and the (fallible, `?`-propagated) path lookup are both evaluated, then the
guarded match decides between `some` proof and `none`. -/
def SingleStepAVDWithHistory.lookup_history (O : SSAVDOps) (T : TreeOps)
    (s : SingleStepAVDWithHistory) (prev_digest : Digest) :
    Except RunError (Option HistoryProof) :=
  match HistoryTree.lookup_path T s.history_tree prev_digest.epoch with
  | .error e => .error e
  | .ok path =>
    match HistoryTree.lookup_digest s.history_tree prev_digest.digest with
    | some epoch =>
      if epoch = prev_digest.epoch then
        match O.digestOf s.ssavd with
        | .error e => .error e
        | .ok d =>
          .ok (some { history_tree_proof := path, ssavd_digest := d,
                      history_tree_digest := s.history_tree.root })
      else .ok none
    | none => .ok none

/-- Source `SingleStepAVDWithHistory::verify_history`: the path verification of
the encoded past digest at the past epoch under the proof's root, then (on
success, mirroring `&&`) the digest-chain check for the current digest. -/
def SingleStepAVDWithHistory.verify_history (O : SSAVDOps) (T : TreeOps) (H : CRH)
    (prev_digest : Digest) (current_digest : Digest) (proof : HistoryProof) :
    Except RunError Bool :=
  match digest_to_bytes (H.outBytes prev_digest.digest) with
  | .error e => .error e
  | .ok leafBytes =>
    match T.verifyPath proof.history_tree_proof proof.history_tree_digest
        leafBytes prev_digest.epoch with
    | .error e => .error e
    | .ok false => .ok false
    | .ok true =>
      match hash_to_final_digest H (O.digestBytes proof.ssavd_digest)
          proof.history_tree_digest current_digest.epoch with
      | .error e => .error e
      | .ok v => .ok (current_digest.digest == v)

/-- Recompute what the final digest ought to be from the current state:
the inner dictionary's current digest chained with the current history root
at the current epoch. -/
def recomputedDigest (O : SSAVDOps) (H : CRH) (s : SingleStepAVDWithHistory) :
    Except RunError Nat :=
  match O.digestOf s.ssavd with
  | .error e => .error e
  | .ok d => hash_to_final_digest H (O.digestBytes d) s.history_tree.root s.history_tree.epoch

/-- The final-digest invariant: the stored final digest is exactly the
recomputation from the current inner digest, history root and epoch. -/
def finalDigestInv (O : SSAVDOps) (H : CRH) (s : SingleStepAVDWithHistory) : Prop :=
  recomputedDigest O H s = .ok s.digest

instance (O : SSAVDOps) (H : CRH) (s : SingleStepAVDWithHistory) :
    Decidable (finalDigestInv O H s) := by
  unfold finalDigestInv; infer_instance

/-- A concrete hash primitive used to evaluate the model: sums the bytes
modulo 97, serializes outputs as one byte, input size 16 bytes. -/
def Hc : CRH :=
  { INPUT_SIZE_BITS := 128,
    eval := fun l => l.foldl (fun a b => a + b) 0 % 97,
    outBytes := fun n => [n % 97] }

/-- A concrete depth-0 Merkle accumulator model (capacity one leaf). -/
def Tc : TreeOps :=
  { depth := 0, newRoot := 0,
    updRoot := fun r i l => (r + 31 * i + l.foldl (fun a b => a + b) 0 + 1) % 97,
    pathOf := fun r i => r + 1000 * i,
    verifyPath := fun p r _ i => .ok (p == r + 1000 * i) }

/-- A concrete depth-2 Merkle accumulator model (capacity four leaves). -/
def Tc2 : TreeOps :=
  { depth := 2, newRoot := 0,
    updRoot := fun r i l => (r + 31 * i + l.foldl (fun a b => a + b) 0 + 1) % 97,
    pathOf := fun r i => r + 1000 * i,
    verifyPath := fun p r _ i => .ok (p == r + 1000 * i) }

/-- A concrete inner dictionary model: the state is a counter that is also
the inner digest; every write bumps it. -/
def Oc : SSAVDOps :=
  { digestOf := fun s => .ok s,
    digestBytes := fun d => [d % 97],
    updateFn := fun s _ _ => (.ok (s + 1, 7), s + 1),
    batchUpdateFn := fun s _ => (.ok (s + 1, 8), s + 1),
    lookupFn := fun s k => .ok (some (0, k), s, 9),
    verifyLookupFn := fun _ _ _ _ => .ok true }

/-- The concrete depth-0 instance produced by `new`. -/
def s0c : SingleStepAVDWithHistory :=
  (SingleStepAVDWithHistory.new Oc Tc Hc 0).toOption.getD default

/-- The depth-0 instance after one successful update (at capacity). -/
def s1c : SingleStepAVDWithHistory :=
  (SingleStepAVDWithHistory.update Oc Tc Hc s0c 1 2).2

/-- The proof returned by the first successful update on `s0c`. -/
def p1c : SingleStepUpdateProof :=
  ((SingleStepAVDWithHistory.update Oc Tc Hc s0c 1 2).1).toOption.getD default

/-- The concrete depth-2 instance produced by `new`. -/
def s0c2 : SingleStepAVDWithHistory :=
  (SingleStepAVDWithHistory.new Oc Tc2 Hc 0).toOption.getD default

/-- Unfolding of `append_digest` to its two guarding conditions: the encoding
must fit the 128-byte buffer, and the leaf slot must be below capacity. -/
theorem append_digest_eq (T : TreeOps) (H : CRH) (ht : HistoryTree) (d : Nat) :
    HistoryTree.append_digest T H ht d =
      if (H.outBytes d).length ≤ 128 then
        if ht.epoch < 2 ^ T.depth then
          .ok { root := T.updRoot ht.root ht.epoch (pad128 (H.outBytes d)),
                digest_d := (d, ht.epoch) :: ht.digest_d, epoch := ht.epoch + 1 }
        else .error .capacityExhausted
      else .error .encodingOverflow := by
  unfold HistoryTree.append_digest digest_to_bytes treeUpdate
  by_cases h1 : (H.outBytes d).length ≤ 128 <;>
    by_cases h2 : ht.epoch < 2 ^ T.depth <;>
    simp [h1, h2]

/-- Everything a successful `update` guarantees: the epoch advances by one,
the pre-update final digest was appended (reverse index grows by its
entry), the proof fields record the pre/post digests and the pre-update
epoch, the inclusion path is the current path at the pre-update epoch, and
the stored final digest is the digest-chain recomputation from the new
inner digest, new root and new epoch. -/
theorem update_ok_spec {O : SSAVDOps} {T : TreeOps} {H : CRH}
    {s : SingleStepAVDWithHistory} {k v : Nat} {p : SingleStepUpdateProof}
    {s' : SingleStepAVDWithHistory}
    (h : SingleStepAVDWithHistory.update O T H s k v = (.ok p, s')) :
    s'.history_tree.epoch = s.history_tree.epoch + 1 ∧
    p.prev_epoch = s.history_tree.epoch ∧
    p.prev_digest = s.digest ∧
    p.new_digest = s'.digest ∧
    O.digestOf s.ssavd = .ok p.prev_ssavd_digest ∧
    O.updateFn s.ssavd k v = (.ok (p.new_ssavd_digest, p.ssavd_proof), s'.ssavd) ∧
    s'.history_tree.digest_d = (s.digest, s.history_tree.epoch) :: s.history_tree.digest_d ∧
    s.history_tree.epoch < 2 ^ T.depth ∧
    p.history_tree_proof = T.pathOf s'.history_tree.root s.history_tree.epoch ∧
    hash_to_final_digest H (O.digestBytes p.new_ssavd_digest)
      s'.history_tree.root s'.history_tree.epoch = .ok s'.digest := by
  unfold SingleStepAVDWithHistory.update at h
  cases hd : O.digestOf s.ssavd with
  | error e => rw [hd] at h; exact absurd (congrArg Prod.fst h) (by simp)
  | ok prev_sd =>
  rw [hd] at h
  cases hu : O.updateFn s.ssavd k v with
  | mk ur s1 =>
  rw [hu] at h
  cases ur with
  | error e => exact absurd (congrArg Prod.fst h) (by simp)
  | ok r =>
  cases r with
  | mk nd spf =>
  simp only [] at h
  rw [append_digest_eq] at h
  by_cases hlen : (H.outBytes s.digest).length ≤ 128
  · rw [if_pos hlen] at h
    by_cases hcap : s.history_tree.epoch < 2 ^ T.depth
    · rw [if_pos hcap] at h
      simp only [] at h
      rw [show HistoryTree.lookup_path T
            { root := T.updRoot s.history_tree.root s.history_tree.epoch
                (pad128 (H.outBytes s.digest)),
              digest_d := (s.digest, s.history_tree.epoch) :: s.history_tree.digest_d,
              epoch := s.history_tree.epoch + 1 } s.history_tree.epoch =
            .ok (T.pathOf (T.updRoot s.history_tree.root s.history_tree.epoch
              (pad128 (H.outBytes s.digest))) s.history_tree.epoch) from by
          unfold HistoryTree.lookup_path treeLookup
          exact if_pos hcap] at h
      simp only [] at h
      cases hh : hash_to_final_digest H (O.digestBytes nd)
          (T.updRoot s.history_tree.root s.history_tree.epoch
            (pad128 (H.outBytes s.digest))) (s.history_tree.epoch + 1) with
      | error e => rw [hh] at h; simp at h
      | ok newd =>
        rw [hh] at h
        simp only [] at h
        obtain ⟨h1, h2⟩ := Prod.mk.injEq .. ▸ h
        cases Except.ok.inj h1
        cases h2
        simp_all
    · rw [if_neg hcap] at h; simp at h
  · rw [if_neg hlen] at h; simp at h

/-- Everything a successful `batch_update` guarantees; identical in shape
to `update_ok_spec`, with the single batched inner write in place of the
single-key write. -/
theorem batch_update_ok_spec {O : SSAVDOps} {T : TreeOps} {H : CRH}
    {s : SingleStepAVDWithHistory} {kvs : List (Nat × Nat)}
    {p : SingleStepUpdateProof} {s' : SingleStepAVDWithHistory}
    (h : SingleStepAVDWithHistory.batch_update O T H s kvs = (.ok p, s')) :
    s'.history_tree.epoch = s.history_tree.epoch + 1 ∧
    p.prev_epoch = s.history_tree.epoch ∧
    p.prev_digest = s.digest ∧
    p.new_digest = s'.digest ∧
    O.digestOf s.ssavd = .ok p.prev_ssavd_digest ∧
    O.batchUpdateFn s.ssavd kvs = (.ok (p.new_ssavd_digest, p.ssavd_proof), s'.ssavd) ∧
    s'.history_tree.digest_d = (s.digest, s.history_tree.epoch) :: s.history_tree.digest_d ∧
    s.history_tree.epoch < 2 ^ T.depth ∧
    p.history_tree_proof = T.pathOf s'.history_tree.root s.history_tree.epoch ∧
    hash_to_final_digest H (O.digestBytes p.new_ssavd_digest)
      s'.history_tree.root s'.history_tree.epoch = .ok s'.digest := by
  unfold SingleStepAVDWithHistory.batch_update at h
  cases hd : O.digestOf s.ssavd with
  | error e => rw [hd] at h; exact absurd (congrArg Prod.fst h) (by simp)
  | ok prev_sd =>
  rw [hd] at h
  cases hu : O.batchUpdateFn s.ssavd kvs with
  | mk ur s1 =>
  rw [hu] at h
  cases ur with
  | error e => exact absurd (congrArg Prod.fst h) (by simp)
  | ok r =>
  cases r with
  | mk nd spf =>
  simp only [] at h
  rw [append_digest_eq] at h
  by_cases hlen : (H.outBytes s.digest).length ≤ 128
  · rw [if_pos hlen] at h
    by_cases hcap : s.history_tree.epoch < 2 ^ T.depth
    · rw [if_pos hcap] at h
      simp only [] at h
      rw [show HistoryTree.lookup_path T
            { root := T.updRoot s.history_tree.root s.history_tree.epoch
                (pad128 (H.outBytes s.digest)),
              digest_d := (s.digest, s.history_tree.epoch) :: s.history_tree.digest_d,
              epoch := s.history_tree.epoch + 1 } s.history_tree.epoch =
            .ok (T.pathOf (T.updRoot s.history_tree.root s.history_tree.epoch
              (pad128 (H.outBytes s.digest))) s.history_tree.epoch) from by
          unfold HistoryTree.lookup_path treeLookup
          exact if_pos hcap] at h
      simp only [] at h
      cases hh : hash_to_final_digest H (O.digestBytes nd)
          (T.updRoot s.history_tree.root s.history_tree.epoch
            (pad128 (H.outBytes s.digest))) (s.history_tree.epoch + 1) with
      | error e => rw [hh] at h; simp at h
      | ok newd =>
        rw [hh] at h
        simp only [] at h
        obtain ⟨h1, h2⟩ := Prod.mk.injEq .. ▸ h
        cases Except.ok.inj h1
        cases h2
        simp_all
    · rw [if_neg hcap] at h; simp at h
  · rw [if_neg hlen] at h; simp at h

/-- When the inner digest read and the inner write succeed but the history
append fails, `update` surfaces exactly the append's error and the
post-call state keeps the (not rolled back) inner mutation while the
history tree and the stored final digest are untouched. -/
theorem update_append_err {O : SSAVDOps} {T : TreeOps} {H : CRH}
    {s : SingleStepAVDWithHistory} {k v : Nat} {pd : Nat} {r : Nat × Nat}
    {s1 : Nat} {e : RunError}
    (hd : O.digestOf s.ssavd = .ok pd)
    (hu : O.updateFn s.ssavd k v = (.ok r, s1))
    (ha : HistoryTree.append_digest T H s.history_tree s.digest = .error e) :
    SingleStepAVDWithHistory.update O T H s k v = (.error e, { s with ssavd := s1 }) := by
  unfold SingleStepAVDWithHistory.update
  rw [hd, hu]
  cases r with
  | mk nd spf =>
  simp only [] 
  rw [ha]

/-- Batch version of `update_append_err`. -/
theorem batch_update_append_err {O : SSAVDOps} {T : TreeOps} {H : CRH}
    {s : SingleStepAVDWithHistory} {kvs : List (Nat × Nat)} {pd : Nat}
    {r : Nat × Nat} {s1 : Nat} {e : RunError}
    (hd : O.digestOf s.ssavd = .ok pd)
    (hu : O.batchUpdateFn s.ssavd kvs = (.ok r, s1))
    (ha : HistoryTree.append_digest T H s.history_tree s.digest = .error e) :
    SingleStepAVDWithHistory.batch_update O T H s kvs = (.error e, { s with ssavd := s1 }) := by
  unfold SingleStepAVDWithHistory.batch_update
  rw [hd, hu]
  cases r with
  | mk nd spf =>
  simp only [] 
  rw [ha]

/-- What a successful `new` guarantees: a fresh history tree, the given
initial inner state, and a final digest chained from the initial inner
digest, the empty tree's root, and epoch 0. -/
theorem new_ok_spec {O : SSAVDOps} {T : TreeOps} {H : CRH} {init : Nat}
    {s : SingleStepAVDWithHistory}
    (h : SingleStepAVDWithHistory.new O T H init = .ok s) :
    s.history_tree = HistoryTree.new T ∧ s.ssavd = init ∧
    ∃ d, O.digestOf init = .ok d ∧
      hash_to_final_digest H (O.digestBytes d) T.newRoot 0 = .ok s.digest := by
  unfold SingleStepAVDWithHistory.new at h
  cases hd : O.digestOf init with
  | error e => rw [hd] at h; simp at h
  | ok d =>
    rw [hd] at h
    simp only [] at h
    cases hh : hash_to_final_digest H (O.digestBytes d) (HistoryTree.new T).root
        (HistoryTree.new T).epoch with
    | error e => rw [hh] at h; simp at h
    | ok fd =>
      rw [hh] at h
      simp only [] at h
      cases Except.ok.inj h
      exact ⟨rfl, rfl, d, rfl, hh⟩

/-- Claim C1: after `new`, and after every successful `update` or
`batch_update`, the stored final digest equals `hash_to_final_digest`
applied to the current inner-dictionary digest, the current history-tree
root and the current epoch; the inner-dictionary hypothesis in the write
cases says that its `digest()` after the write reports the digest the
write returned, which is the inner AVD's interface contract. -/
theorem c1_final_digest_invariant (O : SSAVDOps) (T : TreeOps) (H : CRH) :
    (∀ init s, SingleStepAVDWithHistory.new O T H init = .ok s → finalDigestInv O H s) ∧
    (∀ s k v p s', SingleStepAVDWithHistory.update O T H s k v = (.ok p, s') →
      O.digestOf s'.ssavd = .ok p.new_ssavd_digest → finalDigestInv O H s') ∧
    (∀ s kvs p s', SingleStepAVDWithHistory.batch_update O T H s kvs = (.ok p, s') →
      O.digestOf s'.ssavd = .ok p.new_ssavd_digest → finalDigestInv O H s') := by
  refine ⟨?_, ?_, ?_⟩
  · intro init s h
    obtain ⟨hht, hss, d, hd, hh⟩ := new_ok_spec h
    unfold finalDigestInv recomputedDigest
    rw [hss, hd, hht]
    exact hh
  · intro s k v p s' h hco
    obtain ⟨_, _, _, _, _, _, _, _, _, hh⟩ := update_ok_spec h
    unfold finalDigestInv recomputedDigest
    rw [hco]
    exact hh
  · intro s kvs p s' h hco
    obtain ⟨_, _, _, _, _, _, _, _, _, hh⟩ := batch_update_ok_spec h
    unfold finalDigestInv recomputedDigest
    rw [hco]
    exact hh

/-- A write operation: a single-key `update` or a `batch_update`. -/
inductive WriteOp where
  | single (k v : Nat)
  | batch (kvs : List (Nat × Nat))

/-- Apply one write operation to a state. -/
def applyWrite (O : SSAVDOps) (T : TreeOps) (H : CRH)
    (s : SingleStepAVDWithHistory) :
    WriteOp → (Except RunError SingleStepUpdateProof) × SingleStepAVDWithHistory
  | .single k v => SingleStepAVDWithHistory.update O T H s k v
  | .batch kvs => SingleStepAVDWithHistory.batch_update O T H s kvs

/-- Run a sequence of write operations, stopping at the first error (which
leaves behind whatever state that failing call left). -/
def runWrites (O : SSAVDOps) (T : TreeOps) (H : CRH)
    (s : SingleStepAVDWithHistory) :
    List WriteOp → (Except RunError Unit) × SingleStepAVDWithHistory
  | [] => (.ok (), s)
  | op :: rest =>
    match applyWrite O T H s op with
    | (.ok _, s1) => runWrites O T H s1 rest
    | (.error e, s1) => (.error e, s1)

/-- A successful write advances the epoch by exactly one. -/
theorem applyWrite_epoch {O : SSAVDOps} {T : TreeOps} {H : CRH}
    {s : SingleStepAVDWithHistory} {op : WriteOp} {p : SingleStepUpdateProof}
    {s' : SingleStepAVDWithHistory}
    (h : applyWrite O T H s op = (.ok p, s')) :
    s'.history_tree.epoch = s.history_tree.epoch + 1 := by
  cases op with
  | single k v => exact (update_ok_spec h).1
  | batch kvs => exact (batch_update_ok_spec h).1

/-- Unfolding `runWrites` over a successful head operation. -/
theorem runWrites_cons_ok {O : SSAVDOps} {T : TreeOps} {H : CRH}
    {s : SingleStepAVDWithHistory} {op : WriteOp} {p : SingleStepUpdateProof}
    {s1 : SingleStepAVDWithHistory} {rest : List WriteOp}
    (h : applyWrite O T H s op = (.ok p, s1)) :
    runWrites O T H s (op :: rest) = runWrites O T H s1 rest := by
  conv_lhs => unfold runWrites
  rw [h]

/-- Unfolding `runWrites` over a failing head operation. -/
theorem runWrites_cons_err {O : SSAVDOps} {T : TreeOps} {H : CRH}
    {s : SingleStepAVDWithHistory} {op : WriteOp} {e : RunError}
    {s1 : SingleStepAVDWithHistory} {rest : List WriteOp}
    (h : applyWrite O T H s op = (.error e, s1)) :
    runWrites O T H s (op :: rest) = (.error e, s1) := by
  conv_lhs => unfold runWrites
  rw [h]

/-- An all-successful run of writes advances the epoch by its length. -/
theorem runWrites_epoch {O : SSAVDOps} {T : TreeOps} {H : CRH} :
    ∀ {ops : List WriteOp} {s s' : SingleStepAVDWithHistory},
    runWrites O T H s ops = (.ok (), s') →
    s'.history_tree.epoch = s.history_tree.epoch + ops.length := by
  intro ops
  induction ops with
  | nil =>
    intro s s' h
    unfold runWrites at h
    obtain ⟨-, h2⟩ := Prod.mk.injEq .. ▸ h
    rw [← h2]; simp
  | cons op rest ih =>
    intro s s' h
    cases hw : applyWrite O T H s op with
    | mk r s1 =>
      cases r with
      | ok p =>
        rw [runWrites_cons_ok hw] at h
        rw [ih h, applyWrite_epoch hw, List.length_cons]
        omega
      | error e =>
        rw [runWrites_cons_err hw] at h
        exact absurd (congrArg Prod.fst h) (by simp)

/-- Claim C7: after `new` the published epoch is 0; every successful
`update` or `batch_update` advances the published epoch by exactly 1; and
an all-successful sequence of write calls advances it by exactly its
length (the epoch counts completed writes).  Read operations are pure
functions of the state in this embedding, mirroring `&self` receivers, so
they cannot change the epoch. -/
theorem c7_monotonic_epoch (O : SSAVDOps) (T : TreeOps) (H : CRH) :
    (∀ init s, SingleStepAVDWithHistory.new O T H init = .ok s →
      (SingleStepAVDWithHistory.digest_view s).epoch = 0) ∧
    (∀ s k v p s', SingleStepAVDWithHistory.update O T H s k v = (.ok p, s') →
      (SingleStepAVDWithHistory.digest_view s').epoch =
        (SingleStepAVDWithHistory.digest_view s).epoch + 1) ∧
    (∀ s kvs p s', SingleStepAVDWithHistory.batch_update O T H s kvs = (.ok p, s') →
      (SingleStepAVDWithHistory.digest_view s').epoch =
        (SingleStepAVDWithHistory.digest_view s).epoch + 1) ∧
    (∀ s ops s', runWrites O T H s ops = (.ok (), s') →
      (SingleStepAVDWithHistory.digest_view s').epoch =
        (SingleStepAVDWithHistory.digest_view s).epoch + ops.length) := by
  refine ⟨?_, ?_, ?_, ?_⟩
  · intro init s h
    unfold SingleStepAVDWithHistory.digest_view
    rw [(new_ok_spec h).1]
    rfl
  · intro s k v p s' h
    exact (update_ok_spec h).1
  · intro s kvs p s' h
    exact (batch_update_ok_spec h).1
  · intro s ops s' h
    exact runWrites_epoch h

/-- The depth-2 instance after one successful update. -/
def s1c2 : SingleStepAVDWithHistory :=
  (SingleStepAVDWithHistory.update Oc Tc2 Hc s0c2 1 2).2

/-- The proof returned by the first successful update on `s0c2`. -/
def p1c2 : SingleStepUpdateProof :=
  ((SingleStepAVDWithHistory.update Oc Tc2 Hc s0c2 1 2).1).toOption.getD default

/-- The depth-2 instance after an update and then a batch update. -/
def s2c2 : SingleStepAVDWithHistory :=
  (SingleStepAVDWithHistory.batch_update Oc Tc2 Hc s1c2 [(1, 2), (3, 4)]).2

/-- The proof returned by the batch update on `s1c2`. -/
def p2c2 : SingleStepUpdateProof :=
  ((SingleStepAVDWithHistory.batch_update Oc Tc2 Hc s1c2 [(1, 2), (3, 4)]).1).toOption.getD default

theorem c7_monotonic_epoch_witness :
    (SingleStepAVDWithHistory.digest_view s0c2).epoch = 0 ∧
    (SingleStepAVDWithHistory.digest_view s1c2).epoch =
      (SingleStepAVDWithHistory.digest_view s0c2).epoch + 1 ∧
    (SingleStepAVDWithHistory.digest_view s2c2).epoch =
      (SingleStepAVDWithHistory.digest_view s1c2).epoch + 1 ∧
    (SingleStepAVDWithHistory.digest_view
        (runWrites Oc Tc2 Hc s0c2 [.single 1 2, .batch [(1, 2), (3, 4)]]).2).epoch =
      (SingleStepAVDWithHistory.digest_view s0c2).epoch +
        [WriteOp.single 1 2, WriteOp.batch [(1, 2), (3, 4)]].length :=
  ⟨(c7_monotonic_epoch Oc Tc2 Hc).1 0 s0c2 (by decide),
   (c7_monotonic_epoch Oc Tc2 Hc).2.1 s0c2 1 2 p1c2 s1c2 (by decide),
   (c7_monotonic_epoch Oc Tc2 Hc).2.2.1 s1c2 [(1, 2), (3, 4)] p2c2 s2c2 (by decide),
   (c7_monotonic_epoch Oc Tc2 Hc).2.2.2 s0c2 [.single 1 2, .batch [(1, 2), (3, 4)]]
     (runWrites Oc Tc2 Hc s0c2 [.single 1 2, .batch [(1, 2), (3, 4)]]).2 (by decide)⟩

theorem c1_final_digest_invariant_witness :
    finalDigestInv Oc Hc s0c2 ∧ finalDigestInv Oc Hc s1c2 ∧ finalDigestInv Oc Hc s2c2 :=
  ⟨(c1_final_digest_invariant Oc Tc2 Hc).1 0 s0c2 (by decide),
   (c1_final_digest_invariant Oc Tc2 Hc).2.1 s0c2 1 2 p1c2 s1c2 (by decide) (by decide),
   (c1_final_digest_invariant Oc Tc2 Hc).2.2 s1c2 [(1, 2), (3, 4)] p2c2 s2c2
     (by decide) (by decide)⟩

/-- Claim C9: a successful `batch_update` performs exactly one batched
inner write and one history-log append: the epoch advances by exactly 1
whatever the batch size, the reverse index gains exactly the pre-update
digest at the pre-update epoch, and the returned proof carries the same
fields as a single-update proof: the inclusion path at the pre-update
epoch, the pre/post inner digests, the pre/post final digests and the
previous epoch. -/
theorem c9_batch_consumes_one_epoch (O : SSAVDOps) (T : TreeOps) (H : CRH) :
    ∀ s kvs p s', kvs ≠ [] →
    SingleStepAVDWithHistory.batch_update O T H s kvs = (.ok p, s') →
    O.batchUpdateFn s.ssavd kvs = (.ok (p.new_ssavd_digest, p.ssavd_proof), s'.ssavd) ∧
    s'.history_tree.epoch = s.history_tree.epoch + 1 ∧
    s'.history_tree.digest_d = (s.digest, s.history_tree.epoch) :: s.history_tree.digest_d ∧
    p.prev_epoch = s.history_tree.epoch ∧
    O.digestOf s.ssavd = .ok p.prev_ssavd_digest ∧
    p.prev_digest = s.digest ∧
    p.new_digest = s'.digest ∧
    p.history_tree_proof = T.pathOf s'.history_tree.root s.history_tree.epoch := by
  intro s kvs p s' hne h
  obtain ⟨h1, h2, h3, h4, h5, h6, h7, h8, h9, h10⟩ := batch_update_ok_spec h
  exact ⟨h6, h1, h7, h2, h5, h3, h4, h9⟩

theorem c9_batch_consumes_one_epoch_witness :
    Oc.batchUpdateFn s1c2.ssavd [(1, 2), (3, 4)] =
      (.ok (p2c2.new_ssavd_digest, p2c2.ssavd_proof), s2c2.ssavd) ∧
    s2c2.history_tree.epoch = s1c2.history_tree.epoch + 1 ∧
    s2c2.history_tree.digest_d =
      (s1c2.digest, s1c2.history_tree.epoch) :: s1c2.history_tree.digest_d ∧
    p2c2.prev_epoch = s1c2.history_tree.epoch ∧
    Oc.digestOf s1c2.ssavd = .ok p2c2.prev_ssavd_digest ∧
    p2c2.prev_digest = s1c2.digest ∧
    p2c2.new_digest = s2c2.digest ∧
    p2c2.history_tree_proof = Tc2.pathOf s2c2.history_tree.root s1c2.history_tree.epoch :=
  c9_batch_consumes_one_epoch Oc Tc2 Hc s1c2 [(1, 2), (3, 4)] p2c2 s2c2
    (by decide) (by decide)

/-- Claim C2 (amended): when the inner digest read and the inner write
succeed but the history-log append fails, `update` (or `batch_update`)
surfaces the append's error and the published `digest()` — epoch and final
digest value — is unchanged; the inner dictionary however keeps the new
write (it is not rolled back), so the final-digest invariant over the
whole state need not survive such a failure. -/
theorem c2_failed_append_keeps_digest (O : SSAVDOps) (T : TreeOps) (H : CRH) :
    (∀ s k v pd r s1 e,
      O.digestOf s.ssavd = .ok pd →
      O.updateFn s.ssavd k v = (.ok r, s1) →
      HistoryTree.append_digest T H s.history_tree s.digest = .error e →
      (SingleStepAVDWithHistory.update O T H s k v).1 = .error e ∧
      SingleStepAVDWithHistory.digest_view (SingleStepAVDWithHistory.update O T H s k v).2 =
        SingleStepAVDWithHistory.digest_view s) ∧
    (∀ s kvs pd r s1 e,
      O.digestOf s.ssavd = .ok pd →
      O.batchUpdateFn s.ssavd kvs = (.ok r, s1) →
      HistoryTree.append_digest T H s.history_tree s.digest = .error e →
      (SingleStepAVDWithHistory.batch_update O T H s kvs).1 = .error e ∧
      SingleStepAVDWithHistory.digest_view (SingleStepAVDWithHistory.batch_update O T H s kvs).2 =
        SingleStepAVDWithHistory.digest_view s) := by
  constructor
  · intro s k v pd r s1 e hd hu ha
    rw [update_append_err hd hu ha]
    exact ⟨rfl, rfl⟩
  · intro s kvs pd r s1 e hd hu ha
    rw [batch_update_append_err hd hu ha]
    exact ⟨rfl, rfl⟩

theorem c2_failed_append_keeps_digest_witness :
    (SingleStepAVDWithHistory.update Oc Tc Hc s1c 3 4).1 = .error .capacityExhausted ∧
    SingleStepAVDWithHistory.digest_view (SingleStepAVDWithHistory.update Oc Tc Hc s1c 3 4).2 =
      SingleStepAVDWithHistory.digest_view s1c :=
  (c2_failed_append_keeps_digest Oc Tc Hc).1 s1c 3 4 1 (2, 7) 2 .capacityExhausted
    (by decide) (by decide) (by decide)

/-- Claim C2 is false as stated: on the reachable depth-0 state `s1c` (one
successful update, at capacity), the next `update` fails at the history
append, yet the resulting state violates the final-digest invariant — the
inner write was not rolled back, so the stored final digest no longer
equals the recomputation from the current inner digest. -/
theorem c2_counterexample :
    SingleStepAVDWithHistory.new Oc Tc Hc 0 = .ok s0c ∧
    SingleStepAVDWithHistory.update Oc Tc Hc s0c 1 2 = (.ok p1c, s1c) ∧
    finalDigestInv Oc Hc s1c ∧
    (SingleStepAVDWithHistory.update Oc Tc Hc s1c 3 4).1 = .error .capacityExhausted ∧
    ¬ finalDigestInv Oc Hc (SingleStepAVDWithHistory.update Oc Tc Hc s1c 3 4).2 := by
  decide

/-- Claim C3 (amended): `lookup_history` returns `Ok(None)` when the
queried epoch is in range for a path lookup and the digest value is absent
from the reverse index or recorded at a different epoch; when the digest is
found at the queried in-range epoch (and the inner digest is readable) it
returns `Ok(Some(proof))` with the current inclusion path, current inner
digest and current history root; but when the queried epoch is out of
range, the `?` on the path lookup propagates `IndexOutOfRange` as an
error — it does not return `Ok(None)`. -/
theorem c3_lookup_history_contract (O : SSAVDOps) (T : TreeOps) :
    ∀ (s : SingleStepAVDWithHistory) (prev : Digest),
    (2 ^ T.depth ≤ prev.epoch →
      SingleStepAVDWithHistory.lookup_history O T s prev = .error .indexOutOfRange) ∧
    (prev.epoch < 2 ^ T.depth →
      HistoryTree.lookup_digest s.history_tree prev.digest = none →
      SingleStepAVDWithHistory.lookup_history O T s prev = .ok none) ∧
    (prev.epoch < 2 ^ T.depth → ∀ e0,
      HistoryTree.lookup_digest s.history_tree prev.digest = some e0 → e0 ≠ prev.epoch →
      SingleStepAVDWithHistory.lookup_history O T s prev = .ok none) ∧
    (prev.epoch < 2 ^ T.depth →
      HistoryTree.lookup_digest s.history_tree prev.digest = some prev.epoch →
      ∀ d, O.digestOf s.ssavd = .ok d →
      SingleStepAVDWithHistory.lookup_history O T s prev =
        .ok (some { history_tree_proof := T.pathOf s.history_tree.root prev.epoch,
                    ssavd_digest := d,
                    history_tree_digest := s.history_tree.root })) := by
  intro s prev
  refine ⟨?_, ?_, ?_, ?_⟩
  · intro hge
    unfold SingleStepAVDWithHistory.lookup_history HistoryTree.lookup_path treeLookup
    rw [if_neg (Nat.not_lt.2 hge)]
  · intro hlt hnone
    unfold SingleStepAVDWithHistory.lookup_history HistoryTree.lookup_path treeLookup
    rw [if_pos hlt]
    simp only []
    rw [hnone]
  · intro hlt e0 hsome hne
    unfold SingleStepAVDWithHistory.lookup_history HistoryTree.lookup_path treeLookup
    rw [if_pos hlt]
    simp only []
    rw [hsome]
    simp only []
    rw [if_neg hne]
  · intro hlt hsome d hd
    unfold SingleStepAVDWithHistory.lookup_history HistoryTree.lookup_path treeLookup
    rw [if_pos hlt]
    simp only []
    rw [hsome]
    simp [hd]

theorem c3_lookup_history_contract_witness :
    SingleStepAVDWithHistory.lookup_history Oc Tc s0c { epoch := 1, digest := 5 } =
      .error .indexOutOfRange ∧
    SingleStepAVDWithHistory.lookup_history Oc Tc2 s0c2 { epoch := 0, digest := 42 } =
      .ok none ∧
    SingleStepAVDWithHistory.lookup_history Oc Tc2 s1c2 { epoch := 1, digest := 0 } =
      .ok none ∧
    SingleStepAVDWithHistory.lookup_history Oc Tc2 s1c2 { epoch := 0, digest := 0 } =
      .ok (some { history_tree_proof := Tc2.pathOf s1c2.history_tree.root 0,
                  ssavd_digest := 1,
                  history_tree_digest := s1c2.history_tree.root }) :=
  ⟨(c3_lookup_history_contract Oc Tc s0c { epoch := 1, digest := 5 }).1 (by decide),
   (c3_lookup_history_contract Oc Tc2 s0c2 { epoch := 0, digest := 42 }).2.1
     (by decide) (by decide),
   (c3_lookup_history_contract Oc Tc2 s1c2 { epoch := 1, digest := 0 }).2.2.1
     (by decide) 0 (by decide) (by decide),
   (c3_lookup_history_contract Oc Tc2 s1c2 { epoch := 0, digest := 0 }).2.2.2
     (by decide) (by decide) 1 (by decide)⟩

/-- Claim C3 is false as stated on the out-of-range case: on the reachable
depth-0 state `s0c`, querying a past digest whose epoch (1 = capacity) is
out of range makes `lookup_history` return an `IndexOutOfRange` error, not
`Ok(None)`. -/
theorem c3_counterexample :
    SingleStepAVDWithHistory.new Oc Tc Hc 0 = .ok s0c ∧
    SingleStepAVDWithHistory.lookup_history Oc Tc s0c { epoch := 1, digest := 5 } =
      .error .indexOutOfRange ∧
    SingleStepAVDWithHistory.lookup_history Oc Tc s0c { epoch := 1, digest := 5 } ≠
      .ok none := by
  decide

/-- Claim C5: `verify_lookup` returns `Ok(true)` exactly when the inner
dictionary's verifier accepts the key, claimed result, inner digest and
inner proof, and the claimed digest's value is the digest chain of the
proof's inner digest and history root at the claimed digest's epoch. -/
theorem c5_verify_lookup_iff (O : SSAVDOps) (H : CRH) (key : Nat)
    (value : Option (Nat × Nat)) (dg : Digest) (proof : LookupProof) :
    SingleStepAVDWithHistory.verify_lookup O H key value dg proof = .ok true ↔
      (O.verifyLookupFn key value proof.ssavd_digest proof.ssavd_proof = .ok true ∧
       hash_to_final_digest H (O.digestBytes proof.ssavd_digest)
         proof.history_tree_digest dg.epoch = .ok dg.digest) := by
  unfold SingleStepAVDWithHistory.verify_lookup
  cases hv : O.verifyLookupFn key value proof.ssavd_digest proof.ssavd_proof with
  | error e => simp
  | ok b =>
    cases b with
    | false => simp
    | true =>
      cases hh : hash_to_final_digest H (O.digestBytes proof.ssavd_digest)
          proof.history_tree_digest dg.epoch with
      | error e => simp
      | ok v =>
        simp only []
        constructor
        · intro h
          have hbeq : (dg.digest == v) = true := Except.ok.inj h
          have hv2 : dg.digest = v := eq_of_beq hbeq
          rw [hv2]
          exact ⟨by trivial, by trivial⟩
        · rintro ⟨-, h2⟩
          have hv2 : v = dg.digest := by simpa using h2
          rw [hv2, beq_self_eq_true]

/-- Claim C4: `verify_history` returns `Ok(true)` exactly when the Merkle
path verifier accepts the 128-byte encoding of the past digest's value as
the leaf at the past epoch under the root carried in the proof, and the
current digest's value is the digest chain of the proof's inner digest and
history root at the current digest's epoch. -/
theorem c4_verify_history_iff (O : SSAVDOps) (T : TreeOps) (H : CRH)
    (prev cur : Digest) (proof : HistoryProof) :
    SingleStepAVDWithHistory.verify_history O T H prev cur proof = .ok true ↔
      ((∃ enc, digest_to_bytes (H.outBytes prev.digest) = .ok enc ∧
          T.verifyPath proof.history_tree_proof proof.history_tree_digest enc
            prev.epoch = .ok true) ∧
       hash_to_final_digest H (O.digestBytes proof.ssavd_digest)
         proof.history_tree_digest cur.epoch = .ok cur.digest) := by
  unfold SingleStepAVDWithHistory.verify_history
  cases hb : digest_to_bytes (H.outBytes prev.digest) with
  | error e => simp
  | ok enc =>
    simp only []
    cases hp : T.verifyPath proof.history_tree_proof proof.history_tree_digest enc
        prev.epoch with
    | error e => simp [hp]
    | ok b =>
      cases b with
      | false => simp [hp]
      | true =>
        simp only []
        cases hh : hash_to_final_digest H (O.digestBytes proof.ssavd_digest)
            proof.history_tree_digest cur.epoch with
        | error e => simp [hp]
        | ok v =>
          simp only []
          constructor
          · intro h
            have hbeq : (cur.digest == v) = true := Except.ok.inj h
            have hv2 : cur.digest = v := eq_of_beq hbeq
            rw [hv2]
            exact ⟨⟨enc, by trivial, hp⟩, by trivial⟩
          · rintro ⟨-, h2⟩
            have hv2 : v = cur.digest := by simpa using h2
            rw [hv2, beq_self_eq_true]

/-- The `DigestChain` combiner as the spec words it (§4.2): hash the inner
digest's serialization followed by the history root's, truncated to the
hash's fixed input size, to get an intermediate value; then hash the
epoch's 8 little-endian bytes followed by that value, truncated the same
way. -/
def digestChainSpec (H : CRH) (innerDigestBytes : List Nat)
    (historyRoot epoch : Nat) : Nat :=
  let n := H.INPUT_SIZE_BITS / 8
  let h1 := H.eval ((pad128 (innerDigestBytes ++ H.outBytes historyRoot)).take n)
  H.eval ((pad128 (natToLE8 epoch ++ H.outBytes h1)).take n)

/-- When the serializations fit the fixed buffers, `hash_to_final_digest`
succeeds. -/
theorem hash_to_final_digest_ok {H : CRH} {ib : List Nat} {r : Nat} (e : Nat)
    (h1 : ib.length + (H.outBytes r).length ≤ 128)
    (h2 : H.INPUT_SIZE_BITS / 8 ≤ 128)
    (h3 : ∀ x, 8 + (H.outBytes x).length ≤ 128) :
    hash_to_final_digest H ib r e = .ok (digestChainSpec H ib r e) := by
  unfold hash_to_final_digest digestChainSpec
  simp only []
  rw [if_pos h1, if_pos h2, if_pos (h3 _)]

/-- Claim C6: under buffers that fit, the final digest is computed in
exactly the two-stage shape the spec describes (`digestChainSpec`), and
the computation is deterministic: equal inputs give equal outputs. -/
theorem c6_digest_chain (H : CRH) (ib : List Nat) (r e : Nat)
    (h1 : ib.length + (H.outBytes r).length ≤ 128)
    (h2 : H.INPUT_SIZE_BITS / 8 ≤ 128)
    (h3 : ∀ x, 8 + (H.outBytes x).length ≤ 128) :
    hash_to_final_digest H ib r e = .ok (digestChainSpec H ib r e) ∧
    (∀ ib' r' e', ib' = ib → r' = r → e' = e →
      hash_to_final_digest H ib' r' e' = hash_to_final_digest H ib r e) := by
  constructor
  · exact hash_to_final_digest_ok e h1 h2 h3
  · intro ib' r' e' hi hr he
    rw [hi, hr, he]

theorem c6_digest_chain_witness :
    hash_to_final_digest Hc [1] 2 3 = .ok (digestChainSpec Hc [1] 2 3) :=
  (c6_digest_chain Hc [1] 2 3 (by decide) (by decide) (by intro x; norm_num [Hc])).1

/-- A hash primitive whose fixed input size exceeds the 128-byte buffers. -/
def Hbig : CRH :=
  { INPUT_SIZE_BITS := 2048,
    eval := fun l => l.foldl (fun a b => a + b) 0 % 97,
    outBytes := fun n => [n % 97] }

/-- Claim C10: for a hash primitive with `INPUT_SIZE_BITS ≤ 1024` the two
buffer slices are in bounds and `hash_to_final_digest` never hits the
slice panic, and it returns `Ok` whenever the serializations fit the
buffers; for a primitive whose slice bound exceeds the 128-byte buffers
the function hits the panic (it does not return an `Err`). -/
theorem c10_buffer_bounds :
    (∀ (H : CRH) (ib : List Nat) (r e : Nat), H.INPUT_SIZE_BITS ≤ 1024 →
      hash_to_final_digest H ib r e ≠ .error .panicOOB) ∧
    (∀ (H : CRH) (ib : List Nat) (r e : Nat), H.INPUT_SIZE_BITS ≤ 1024 →
      ib.length + (H.outBytes r).length ≤ 128 →
      (∀ x, 8 + (H.outBytes x).length ≤ 128) →
      ∃ v, hash_to_final_digest H ib r e = .ok v) ∧
    (∀ (H : CRH) (ib : List Nat) (r e : Nat), 128 < H.INPUT_SIZE_BITS / 8 →
      ib.length + (H.outBytes r).length ≤ 128 →
      hash_to_final_digest H ib r e = .error .panicOOB) := by
  refine ⟨?_, ?_, ?_⟩
  · intro H ib r e hle
    have hn : H.INPUT_SIZE_BITS / 8 ≤ 128 := by
      have : H.INPUT_SIZE_BITS / 8 ≤ 1024 / 8 := Nat.div_le_div_right hle
      omega
    unfold hash_to_final_digest
    simp only []
    by_cases hb1 : ib.length + (H.outBytes r).length ≤ 128
    · rw [if_pos hb1, if_pos hn]
      by_cases hb2 : 8 + (H.outBytes (H.eval ((pad128 (ib ++ H.outBytes r)).take
          (H.INPUT_SIZE_BITS / 8)))).length ≤ 128
      · rw [if_pos hb2]; simp
      · rw [if_neg hb2]; simp
    · rw [if_neg hb1]; simp
  · intro H ib r e hle hb1 hb2
    have hn : H.INPUT_SIZE_BITS / 8 ≤ 128 := by
      have : H.INPUT_SIZE_BITS / 8 ≤ 1024 / 8 := Nat.div_le_div_right hle
      omega
    exact ⟨_, hash_to_final_digest_ok e hb1 hn hb2⟩
  · intro H ib r e hgt hb1
    unfold hash_to_final_digest
    simp only []
    rw [if_pos hb1, if_neg (Nat.not_le.2 hgt)]

theorem c10_buffer_bounds_witness :
    hash_to_final_digest Hc [1] 2 3 ≠ .error .panicOOB ∧
    (∃ v, hash_to_final_digest Hc [1] 2 3 = .ok v) ∧
    hash_to_final_digest Hbig [1] 2 3 = .error .panicOOB :=
  ⟨c10_buffer_bounds.1 Hc [1] 2 3 (by decide),
   c10_buffer_bounds.2.1 Hc [1] 2 3 (by decide) (by decide) (by intro x; norm_num [Hc]),
   c10_buffer_bounds.2.2 Hbig [1] 2 3 (by decide) (by decide)⟩

/-- Hypotheses under which writes always succeed below capacity: the inner
dictionary's operations succeed, and all serializations comfortably fit
the fixed 128-byte buffers. -/
structure Admissible (O : SSAVDOps) (H : CRH) : Prop where
  digestOf_ok : ∀ s, ∃ d, O.digestOf s = .ok d
  update_ok : ∀ s k v, ∃ r s1, O.updateFn s k v = (.ok r, s1)
  batch_ok : ∀ s kvs, ∃ r s1, O.batchUpdateFn s kvs = (.ok r, s1)
  digestBytes_le : ∀ d, (O.digestBytes d).length ≤ 60
  outBytes_le : ∀ x, (H.outBytes x).length ≤ 60
  input_le : H.INPUT_SIZE_BITS / 8 ≤ 128

/-- Below capacity an admissible `update` succeeds. -/
theorem update_total_of_lt {O : SSAVDOps} {T : TreeOps} {H : CRH}
    (hA : Admissible O H) (s : SingleStepAVDWithHistory) (k v : Nat)
    (hlt : s.history_tree.epoch < 2 ^ T.depth) :
    ∃ p s', SingleStepAVDWithHistory.update O T H s k v = (.ok p, s') := by
  obtain ⟨pd, hd⟩ := hA.digestOf_ok s.ssavd
  obtain ⟨r, s1, hu⟩ := hA.update_ok s.ssavd k v
  cases r with
  | mk nd spf =>
  unfold SingleStepAVDWithHistory.update
  rw [hd, hu]
  simp only []
  rw [append_digest_eq, if_pos (le_trans (hA.outBytes_le _) (by norm_num)), if_pos hlt]
  simp only []
  rw [show HistoryTree.lookup_path T
        { root := T.updRoot s.history_tree.root s.history_tree.epoch
            (pad128 (H.outBytes s.digest)),
          digest_d := (s.digest, s.history_tree.epoch) :: s.history_tree.digest_d,
          epoch := s.history_tree.epoch + 1 } s.history_tree.epoch =
      .ok (T.pathOf (T.updRoot s.history_tree.root s.history_tree.epoch
        (pad128 (H.outBytes s.digest))) s.history_tree.epoch) from by
    unfold HistoryTree.lookup_path treeLookup
    exact if_pos hlt]
  simp only []
  rw [hash_to_final_digest_ok (s.history_tree.epoch + 1)
    (by
      have h5 := hA.digestBytes_le nd
      have h6 := hA.outBytes_le (T.updRoot s.history_tree.root s.history_tree.epoch
        (pad128 (H.outBytes s.digest)))
      omega)
    hA.input_le
    (fun x => by have := hA.outBytes_le x; omega)]
  exact ⟨_, _, rfl⟩

/-- Below capacity an admissible `batch_update` succeeds. -/
theorem batch_update_total_of_lt {O : SSAVDOps} {T : TreeOps} {H : CRH}
    (hA : Admissible O H) (s : SingleStepAVDWithHistory) (kvs : List (Nat × Nat))
    (hlt : s.history_tree.epoch < 2 ^ T.depth) :
    ∃ p s', SingleStepAVDWithHistory.batch_update O T H s kvs = (.ok p, s') := by
  obtain ⟨pd, hd⟩ := hA.digestOf_ok s.ssavd
  obtain ⟨r, s1, hu⟩ := hA.batch_ok s.ssavd kvs
  cases r with
  | mk nd spf =>
  unfold SingleStepAVDWithHistory.batch_update
  rw [hd, hu]
  simp only []
  rw [append_digest_eq, if_pos (le_trans (hA.outBytes_le _) (by norm_num)), if_pos hlt]
  simp only []
  rw [show HistoryTree.lookup_path T
        { root := T.updRoot s.history_tree.root s.history_tree.epoch
            (pad128 (H.outBytes s.digest)),
          digest_d := (s.digest, s.history_tree.epoch) :: s.history_tree.digest_d,
          epoch := s.history_tree.epoch + 1 } s.history_tree.epoch =
      .ok (T.pathOf (T.updRoot s.history_tree.root s.history_tree.epoch
        (pad128 (H.outBytes s.digest))) s.history_tree.epoch) from by
    unfold HistoryTree.lookup_path treeLookup
    exact if_pos hlt]
  simp only []
  rw [hash_to_final_digest_ok (s.history_tree.epoch + 1)
    (by
      have h5 := hA.digestBytes_le nd
      have h6 := hA.outBytes_le (T.updRoot s.history_tree.root s.history_tree.epoch
        (pad128 (H.outBytes s.digest)))
      omega)
    hA.input_le
    (fun x => by have := hA.outBytes_le x; omega)]
  exact ⟨_, _, rfl⟩

/-- At capacity an admissible write fails with `CapacityExhausted`. -/
theorem applyWrite_err_at_cap {O : SSAVDOps} {T : TreeOps} {H : CRH}
    (hA : Admissible O H) (op : WriteOp) (s : SingleStepAVDWithHistory)
    (hge : 2 ^ T.depth ≤ s.history_tree.epoch) :
    (applyWrite O T H s op).1 = .error .capacityExhausted := by
  have ha : HistoryTree.append_digest T H s.history_tree s.digest =
      .error .capacityExhausted := by
    rw [append_digest_eq, if_pos (le_trans (hA.outBytes_le _) (by norm_num)),
      if_neg (Nat.not_lt.2 hge)]
  obtain ⟨pd, hd⟩ := hA.digestOf_ok s.ssavd
  cases op with
  | single k v =>
    obtain ⟨r, s1, hu⟩ := hA.update_ok s.ssavd k v
    show (SingleStepAVDWithHistory.update O T H s k v).1 = _
    rw [update_append_err hd hu ha]
  | batch kvs =>
    obtain ⟨r, s1, hu⟩ := hA.batch_ok s.ssavd kvs
    show (SingleStepAVDWithHistory.batch_update O T H s kvs).1 = _
    rw [batch_update_append_err hd hu ha]

/-- Below capacity an admissible write succeeds. -/
theorem applyWrite_total {O : SSAVDOps} {T : TreeOps} {H : CRH}
    (hA : Admissible O H) (op : WriteOp) (s : SingleStepAVDWithHistory)
    (hlt : s.history_tree.epoch < 2 ^ T.depth) :
    ∃ p s', applyWrite O T H s op = (.ok p, s') := by
  cases op with
  | single k v => exact update_total_of_lt hA s k v hlt
  | batch kvs => exact batch_update_total_of_lt hA s kvs hlt

/-- While there is room for the whole sequence, an admissible run of
writes succeeds and advances the epoch by its length. -/
theorem runWrites_total {O : SSAVDOps} {T : TreeOps} {H : CRH}
    (hA : Admissible O H) :
    ∀ (ops : List WriteOp) (s : SingleStepAVDWithHistory),
    s.history_tree.epoch + ops.length ≤ 2 ^ T.depth →
    ∃ s', runWrites O T H s ops = (.ok (), s') ∧
      s'.history_tree.epoch = s.history_tree.epoch + ops.length := by
  intro ops
  induction ops with
  | nil => intro s h; exact ⟨s, rfl, by simp⟩
  | cons op rest ih =>
    intro s h
    simp only [List.length_cons] at h
    have hlt : s.history_tree.epoch < 2 ^ T.depth := by omega
    obtain ⟨p, s1, hps⟩ := applyWrite_total hA op s hlt
    have he1 : s1.history_tree.epoch = s.history_tree.epoch + 1 := applyWrite_epoch hps
    obtain ⟨s', hrun, hep⟩ := ih s1 (by omega)
    refine ⟨s', ?_, ?_⟩
    · rw [runWrites_cons_ok hps]; exact hrun
    · simp only [List.length_cons]; omega

/-- At capacity, a nonempty run of admissible writes fails immediately
with `CapacityExhausted`. -/
theorem runWrites_err_at_cap {O : SSAVDOps} {T : TreeOps} {H : CRH}
    (hA : Admissible O H) (op : WriteOp) (ops : List WriteOp)
    (s : SingleStepAVDWithHistory)
    (hge : 2 ^ T.depth ≤ s.history_tree.epoch) :
    (runWrites O T H s (op :: ops)).1 = .error .capacityExhausted := by
  have h1 := applyWrite_err_at_cap hA op s hge
  cases hw : applyWrite O T H s op with
  | mk r s1 =>
    cases r with
    | ok p => rw [hw] at h1; simp at h1
    | error e =>
      have he : e = .capacityExhausted := by rw [hw] at h1; simpa using h1
      subst he
      rw [runWrites_cons_err hw]

/-- Splitting a run of writes into two runs. -/
theorem runWrites_append {O : SSAVDOps} {T : TreeOps} {H : CRH} :
    ∀ (l1 l2 : List WriteOp) (s : SingleStepAVDWithHistory),
    runWrites O T H s (l1 ++ l2) =
      match runWrites O T H s l1 with
      | (.ok _, s1) => runWrites O T H s1 l2
      | (.error e, s1) => (.error e, s1) := by
  intro l1
  induction l1 with
  | nil => intro l2 s; rfl
  | cons op rest ih =>
    intro l2 s
    cases hw : applyWrite O T H s op with
    | mk r s1 =>
      cases r with
      | ok p =>
        rw [List.cons_append, runWrites_cons_ok hw, runWrites_cons_ok hw, ih]
      | error e =>
        rw [List.cons_append, runWrites_cons_err hw, runWrites_cons_err hw]

/-- Claim C8: appending to the history log fails with `CapacityExhausted`
exactly when the epoch has reached `2^depth` (given the digest encodes into
the 128-byte leaf buffer); consequently, from a fresh instance an
admissible sequence of at most `2^depth` writes fully succeeds, ending at
an epoch equal to its length, and any longer sequence fails with
`CapacityExhausted` at the write after the `2^depth`-th. -/
theorem c8_capacity_boundary (O : SSAVDOps) (T : TreeOps) (H : CRH) :
    (∀ ht d, (H.outBytes d).length ≤ 128 →
      (HistoryTree.append_digest T H ht d = .error .capacityExhausted ↔
        2 ^ T.depth ≤ ht.epoch)) ∧
    (Admissible O H → ∀ init s0, SingleStepAVDWithHistory.new O T H init = .ok s0 →
      (∀ ops : List WriteOp, ops.length ≤ 2 ^ T.depth →
        ∃ s', runWrites O T H s0 ops = (.ok (), s') ∧
          s'.history_tree.epoch = ops.length) ∧
      (∀ ops : List WriteOp, 2 ^ T.depth < ops.length →
        (runWrites O T H s0 ops).1 = .error .capacityExhausted)) := by
  constructor
  · intro ht d hlen
    rw [append_digest_eq, if_pos hlen]
    by_cases hcap : ht.epoch < 2 ^ T.depth
    · rw [if_pos hcap]
      constructor
      · intro hcon; exact absurd hcon (by simp)
      · intro hge; omega
    · rw [if_neg hcap]
      exact ⟨fun _ => Nat.not_lt.1 hcap, fun _ => rfl⟩
  · intro hA init s0 hnew
    have hep0 : s0.history_tree.epoch = 0 := by rw [(new_ok_spec hnew).1]; rfl
    constructor
    · intro ops hle
      obtain ⟨s', hrun, hep⟩ := @runWrites_total O T H hA ops s0 (by omega)
      exact ⟨s', hrun, by omega⟩
    · intro ops hgt
      have hsplit : ops = ops.take (2 ^ T.depth) ++ ops.drop (2 ^ T.depth) :=
        (List.take_append_drop _ _).symm
      have hlen1 : (ops.take (2 ^ T.depth)).length = 2 ^ T.depth := by
        rw [List.length_take]; omega
      obtain ⟨smid, hrun1, hep1⟩ := @runWrites_total O T H hA (ops.take (2 ^ T.depth)) s0
        (by omega)
      have hmid : 2 ^ T.depth ≤ smid.history_tree.epoch := by omega
      cases hd2 : ops.drop (2 ^ T.depth) with
      | nil =>
        exfalso
        have := congrArg List.length hd2
        simp only [List.length_drop, List.length_nil] at this
        omega
      | cons op2 rest2 =>
        rw [hsplit, runWrites_append, hrun1]
        simp only []
        rw [hd2]
        exact runWrites_err_at_cap hA op2 rest2 smid hmid

/-- The concrete inner dictionary and hash primitive are admissible. -/
theorem Oc_Hc_admissible : Admissible Oc Hc :=
  ⟨fun s => ⟨s, rfl⟩,
   fun s _ _ => ⟨(s + 1, 7), s + 1, rfl⟩,
   fun s _ => ⟨(s + 1, 8), s + 1, rfl⟩,
   fun d => by norm_num [Oc],
   fun x => by norm_num [Hc],
   by decide⟩

theorem c8_capacity_boundary_witness :
    (HistoryTree.append_digest Tc Hc (HistoryTree.new Tc) 5 = .error .capacityExhausted ↔
      2 ^ Tc.depth ≤ (HistoryTree.new Tc).epoch) ∧
    (∃ s', runWrites Oc Tc Hc s0c [.single 1 2] = (.ok (), s') ∧
      s'.history_tree.epoch = [WriteOp.single 1 2].length) ∧
    (runWrites Oc Tc Hc s0c [.single 1 2, .single 3 4]).1 = .error .capacityExhausted :=
  ⟨(c8_capacity_boundary Oc Tc Hc).1 (HistoryTree.new Tc) 5 (by decide),
   ((c8_capacity_boundary Oc Tc Hc).2 Oc_Hc_admissible 0 s0c (by decide)).1
     [.single 1 2] (by decide),
   ((c8_capacity_boundary Oc Tc Hc).2 Oc_Hc_admissible 0 s0c (by decide)).2
     [.single 1 2, .single 3 4] (by decide)⟩
